import Mathlib

/-!
Verification of the unipdf text-extractor specification against the code of
`src/extractor/utils.go` and `src/extractor/text_test.go`.

Pure functions from the source are embedded as executable Lean definitions.
The extractor core (`RangeOffset`, `ExtractText`, the mark index) is not part
of the given sources, only its tests and spec; those parts are modelled from
the spec (each such definition says so in its doc comment).

Strings at the byte level are `List Nat` (Go strings are byte slices);
coordinates are `ℚ`, or `ℤ` in the fragment-test interpreter whose inputs are
all integers (exact stand-ins for `float64` on the inputs considered).
-/

/-- `model.PdfRectangle`: a PDF rectangle given by two corners, as used by the
test helpers `r` and `rectEquals` in `src/extractor/text_test.go`. -/
structure PdfRectangle where
  llx : ℚ
  lly : ℚ
  urx : ℚ
  ury : ℚ
deriving DecidableEq, Repr

/-- `tol` from `src/extractor/text_test.go`: the coordinate-match tolerance,
"just over 0.5" points. -/
def tol : ℚ := 5001 / 10000

/-- `rectEquals` from `src/extractor/text_test.go`: true when all four
corresponding coordinates of the two rectangles differ by at most `tol`. -/
def rectEquals (b1 b2 : PdfRectangle) : Bool :=
  decide (|b1.llx - b2.llx| ≤ tol) &&
  decide (|b1.lly - b2.lly| ≤ tol) &&
  decide (|b1.urx - b2.urx| ≤ tol) &&
  decide (|b1.ury - b2.ury| ≤ tol)

/-- `truncate` from `src/extractor/utils.go`: returns `s` whole when
`len(s) < n`, otherwise the first `n` bytes `s[:n]`. -/
def truncate (s : List Nat) (n : Nat) : List Nat :=
  if s.length < n then s else s.take n

/-- A PDF object as far as `toFloatXY` inspects it: either an object carrying
a numeric value or some other object. -/
inductive PdfObject where
  | number (x : ℚ)
  | other
deriving DecidableEq, Repr

/-- Whether a `PdfObject` can be converted to a float. -/
def isNumber : PdfObject → Bool
  | .number _ => true
  | .other => false

/-- Modelled from the spec: `core.GetNumbersAsFloat` of the surrounding
document model (not under `src/`) converts a list of objects to their numeric
values, failing when any element cannot be converted to a float. -/
def GetNumbersAsFloat (objs : List PdfObject) : Except String (List ℚ) :=
  if objs.all isNumber then
    .ok (objs.map (fun o => match o with | .number x => x | .other => 0))
  else
    .error "not a number"

/-- `toFloatXY` from `src/extractor/utils.go`: returns `objs` as two floats if
that is what `objs` is, or an error if it is not.  The result is
`(x, y, err)`. -/
def toFloatXY (objs : List PdfObject) : ℚ × ℚ × Option String :=
  if objs.length ≠ 2 then
    (0, 0, some "invalid number of params")
  else
    match GetNumbersAsFloat objs with
    | .error e => (0, 0, some e)
    | .ok floats => (floats.getD 0 0, floats.getD 1 0, none)

/-- A `TextMark` as in the spec's data model (§3): the starting offset of the
substring this mark represents within the page's logical text, the substring
itself (as bytes), and the mark's bounding box. -/
structure TextMark where
  offset : Nat
  text : List Nat
  bbox : PdfRectangle
deriving DecidableEq, Repr

/-- One past the last text offset covered by a mark. -/
def markEnd (m : TextMark) : Nat := m.offset + m.text.length

/-- A `PageText`: the logical text of one page (as bytes) together with its
ordered mark sequence (spec §3). -/
structure PageTextM where
  text : List Nat
  marks : List TextMark
deriving DecidableEq, Repr

/-- Whether a mark's coverage intersects the half-open range `[s, e)`. -/
def intersectsRange (m : TextMark) (s e : Nat) : Bool :=
  decide (m.offset < e) && decide (s < markEnd m)

/-- The error conditions of the range query (spec §4.5). -/
inductive RangeError where
  | invalidRange
  | noMatch
deriving DecidableEq, Repr

/-- Modelled from the spec: `TextMarkArray.RangeOffset` of the extractor core
(not under `src/`), spec §4.5.  Fails with `InvalidRange` when `start < 0`,
`end > length(text)` or `start ≥ end`; otherwise returns, in original order,
every mark whose coverage intersects `[start, end)`, with `NoMatch` when that
range covers exclusively inserted separators (no backing marks). -/
def RangeOffset (pt : PageTextM) (start stop : Int) : Except RangeError (List TextMark) :=
  if start < 0 || stop > (pt.text.length : Int) || start ≥ stop then
    .error .invalidRange
  else if (pt.marks.filter (fun m => intersectsRange m start.toNat stop.toNat)).isEmpty then
    .error .noMatch
  else
    .ok (pt.marks.filter (fun m => intersectsRange m start.toNat stop.toNat))

/-- Marks are listed in non-decreasing offset order (spec §3 invariant). -/
def sortedByOffset : List TextMark → Bool
  | [] => true
  | [_] => true
  | a :: b :: t => decide (a.offset ≤ b.offset) && sortedByOffset (b :: t)

/-- Well-formedness of a page's marks: every mark has non-empty text that is
exactly the slice of the logical text it claims to cover, and marks are in
offset order (spec §3). -/
def marksWellFormed (pt : PageTextM) : Bool :=
  pt.marks.all (fun m =>
    !m.text.isEmpty && m.text == (pt.text.drop m.offset).take m.text.length) &&
  sortedByOffset pt.marks

/-- Consecutive marks cover disjoint text ranges (no ligature/diacritic
overlap). -/
def marksDisjoint : List TextMark → Bool
  | [] => true
  | [_] => true
  | a :: b :: t => decide (markEnd a ≤ b.offset) && marksDisjoint (b :: t)

/-- Whether text position `p` is backed by some mark (spec §4.4: inserted
separators are positions backed by no mark). -/
def backed (pt : PageTextM) (p : Nat) : Bool :=
  pt.marks.any (fun m => decide (m.offset ≤ p) && decide (p < markEnd m))

/-- The query substring `text[s:e]` of a page's logical text. -/
def querySub (pt : PageTextM) (s e : Nat) : List Nat :=
  (pt.text.drop s).take (e - s)

/-- `startWith` from `src/extractor/text_test.go`: true if the start of `str`
overlaps the end of `sub`, i.e. some non-empty suffix of `sub` is a prefix of
`str`. -/
def startWith (str sub : List Nat) : Bool :=
  (List.range sub.length).any (fun n => List.isPrefixOf (sub.drop n) str)

/-- `endsWith` from `src/extractor/text_test.go`: true if the end of `str`
overlaps the start of `sub`, i.e. some non-empty prefix of `sub` is a suffix
of `str`. -/
def endsWith (str sub : List Nat) : Bool :=
  (List.range sub.length).any (fun n => List.isSuffixOf (sub.take (n + 1)) str)

/-- The result of a colorspace's `ColorToRGB` conversion, classified by
whether the converted color is in the `DeviceRGB` colorspace. -/
inductive RGBConvResult where
  | rgb (r g b : ℚ)
  | nonRGB
deriving Repr

/-- An abstract PDF color: colors are opaque values identified by an index
into the collaborator's color table. -/
abbrev PdfColorM := Nat

/-- `model.PdfColorspace` as far as `pdfColorToGoColor` uses it: a fallible
conversion of a color to RGB (external collaborator of `src/extractor`). -/
structure PdfColorspaceM where
  colorToRGB : PdfColorM → Except String RGBConvResult

/-- A Go `color.Color` as produced by `pdfColorToGoColor`: either the default
`color.Black` or an `color.NRGBA` value. -/
inductive GoColor where
  | black
  | nrgba (r g b a : Nat)
deriving DecidableEq, Repr

/-- One 8-bit color channel: Go's `uint8(x * 255)` conversion (truncation
toward zero) of a component `x` in `[0, 1]`. -/
def colorChannel (x : ℚ) : Nat := ⌊x * 255⌋.toNat

/-- `pdfColorToGoColor` from `src/extractor/utils.go`: converts the specified
color to a Go color using the provided colorspace; `color.Black` is returned
whenever the colorspace or color is nil, the conversion to RGB errors, or the
converted color is not in the RGB colorspace. -/
def pdfColorToGoColor (space : Option PdfColorspaceM) (c : Option PdfColorM) : GoColor :=
  match space, c with
  | none, _ => .black
  | _, none => .black
  | some s, some col =>
    match s.colorToRGB col with
    | .error _ => .black
    | .ok .nonRGB => .black
    | .ok (.rgb r g b) =>
      .nrgba (colorChannel r) (colorChannel g) (colorChannel b) 255

/-- An affine map of the plane, written as the PDF matrix
`[a b c d e f]`: the point `(x, y)` is mapped to
`(a*x + c*y + e, b*x + d*y + f)`.  The fragment-test streams use only
integer coordinates, so the matrix is kept over `ℤ` (exactly). -/
structure Mat where
  a : ℤ
  b : ℤ
  c : ℤ
  d : ℤ
  e : ℤ
  f : ℤ
deriving DecidableEq, Repr

/-- The identity matrix, installed by the `BT` operator. -/
def idMat : Mat := ⟨1, 0, 0, 1, 0, 0⟩

/-- The `Td` operator: translate the text-line matrix by `(tx, ty)` in text
space, i.e. premultiply by a translation. -/
def tdUpdate (m : Mat) (tx ty : ℤ) : Mat :=
  { m with e := tx * m.a + ty * m.c + m.e, f := tx * m.b + ty * m.d + m.f }

/-- The four axis-aligned page orientations a text matrix can select. -/
inductive Orient where
  | or0
  | or90
  | or180
  | or270
deriving DecidableEq, Repr

/-- Modelled from the spec (§4.1): classify the rotation part of a text
matrix into one of the four axis-aligned orientations, so that emitted
coordinates can be normalized to the same frame regardless of rotation. -/
def orientOf (m : Mat) : Orient :=
  if m.b = 0 ∧ m.c = 0 then
    (if m.a < 0 then .or180 else .or0)
  else if m.a = 0 ∧ m.d = 0 then
    (if m.b > 0 then .or90 else .or270)
  else .or0

/-- The vertical coordinate of a device point once the given orientation has
been compensated (rotated back to the default upright frame). -/
def orientedY (o : Orient) (x y : ℤ) : ℤ :=
  match o with
  | .or0 => y
  | .or90 => -x
  | .or180 => -y
  | .or270 => x

/-- A media box with integer corner coordinates, as in the fragment tests;
it determines the base transform of the page (spec §4.1). -/
structure IntRect where
  llx : ℤ
  lly : ℤ
  urx : ℤ
  ury : ℤ
deriving DecidableEq, Repr

/-- The content-stream operators exercised by the fragment tests: begin/end
text object, set font and size, show text, move text position, set text
matrix. -/
inductive Op where
  | bt
  | et
  | tf (fontName : String) (size : ℤ)
  | tj (s : String)
  | td (tx ty : ℤ)
  | tm (a b c d e f : ℤ)
deriving Repr

/-- The interpreter/assembler state: whether we are inside a text object, the
current font size, the text matrix, the oriented baseline of the previous
show operation, and the logical text assembled so far. -/
structure IState where
  inText : Bool
  size : ℤ
  mat : Mat
  prevY : Option ℤ
  out : List Char
deriving Repr

/-- The initial interpreter state. -/
def initIState : IState := ⟨false, 0, idMat, none, []⟩

/-- Modelled from the spec (§4.2 and §4.4): one step of the content-stream
interpreter and logical-text assembler.  A show-text operator outside a text
object is skipped (recoverable error); a show-text operator emits a line
break when the oriented baseline drops by more than half the font size since
the previous show (the exact threshold is a tunable constant per the spec's
design notes); `ET` terminates the paragraph with a newline. -/
def stepOp (mb : IntRect) (st : IState) (op : Op) : IState :=
  match op with
  | .bt => { st with inText := true, mat := idMat }
  | .et => { st with inText := false, out := st.out ++ ['\n'] }
  | .tf _ size => { st with size := size }
  | .tm a b c d e f => { st with mat := ⟨a, b, c, d, e, f⟩ }
  | .td tx ty => { st with mat := tdUpdate st.mat tx ty }
  | .tj s =>
    if !st.inText then st
    else
      let ox := st.mat.e - mb.llx
      let oy := st.mat.f - mb.lly
      let yOr := orientedY (orientOf st.mat) ox oy
      let brk :=
        match st.prevY with
        | none => false
        | some y0 => decide (y0 - yOr > st.size / 2)
      { st with
          prevY := some yOr,
          out := st.out ++ (if brk then '\n' :: s.data else s.data) }

/-- Modelled from the spec (§2, §6): extract the logical text of a page given
its media box and decoded operator stream. -/
def extractText (mb : IntRect) (ops : List Op) : String :=
  ⟨(ops.foldl (stepOp mb) initIState).out⟩

/-- `strings.TrimRight(text, "\n")` as applied by the fragment test before
comparing the extracted text. -/
def trimRightNewlines (s : String) : String :=
  ⟨(s.data.reverse.dropWhile (fun c => c = '\n')).reverse⟩

/-- The media box `r(-200, -200, 600, 800)` of the fragment tests. -/
def fragmentMediaBox : IntRect := ⟨-200, -200, 600, 800⟩

/-- The decoded operator stream of the "portrait" fragment test:
`BT /UniDocCourier 24 Tf (Hello World!)Tj 0 -25 Td (Doink)Tj ET`. -/
def portraitOps : List Op :=
  [.bt, .tf "UniDocCourier" 24, .tj "Hello World!", .td 0 (-25), .tj "Doink", .et]

/-- The decoded operator stream of the "landscape" fragment test: the same
stream with the 90-degree text matrix `0 1 -1 0 0 0 Tm` prefixed. -/
def landscapeOps : List Op :=
  [.bt, .tf "UniDocCourier" 24, .tm 0 1 (-1) 0 0 0,
   .tj "Hello World!", .td 0 (-25), .tj "Doink", .et]

/-- The decoded operator stream of the "180 degree rotation" fragment test:
the same stream with the text matrix `-1 0 0 -1 0 0 Tm` prefixed. -/
def rot180Ops : List Op :=
  [.bt, .tf "UniDocCourier" 24, .tm (-1) 0 0 (-1) 0 0,
   .tj "Hello World!", .td 0 (-25), .tj "Doink", .et]

/-- The vertical-tab character `\v` (U+000B). -/
def vtab : Char := Char.ofNat 11

/-- The form-feed character `\f` (U+000C). -/
def ffeed : Char := Char.ofNat 12

/-- Go's regexp character class `\s`, i.e. `[\t\n\f\r ]` as matched by the
pattern `(?m)\s+` in `src/extractor/text_test.go`.  Note that the vertical
tab `\v` is not in this class. -/
def goSpace (c : Char) : Bool :=
  c == ' ' || c == '\t' || c == '\n' || c == ffeed || c == '\r'

/-- The cutset `" \t\n\r\v"` of the `strings.Trim` call in `reduceSpaces`. -/
def cutset (c : Char) : Bool :=
  c == ' ' || c == '\t' || c == '\n' || c == '\r' || c == vtab

/-- `reSpace.ReplaceAllString(text, " ")` for `reSpace = (?m)\s+`: every
maximal run of `goSpace` characters is replaced by a single space.  The flag
records whether we are inside a run whose replacement space was already
emitted. -/
def collapseAux : Bool → List Char → List Char
  | _, [] => []
  | inRun, c :: cs =>
    if goSpace c then
      if inRun then collapseAux true cs else ' ' :: collapseAux true cs
    else
      c :: collapseAux false cs

/-- `strings.Trim(l, " \t\n\r\v")`: remove leading and trailing cutset
characters. -/
def trimList (l : List Char) : List Char :=
  ((l.dropWhile cutset).reverse.dropWhile cutset).reverse

/-- `reduceSpaces` from `src/extractor/text_test.go`: replace every run of
`\s` characters by a single space, then trim `" \t\n\r\v"` from both ends. -/
def reduceSpaces (text : String) : String :=
  ⟨trimList (collapseAux false text.data)⟩

/-- No two consecutive characters of the list both satisfy `p`. -/
def noDoubleBy (p : Char → Bool) : List Char → Bool
  | [] => true
  | [_] => true
  | a :: b :: t => (!(p a && p b)) && noDoubleBy p (b :: t)

/-- Whether the head of the list satisfies `p` (`false` for the empty list). -/
def headP (p : Char → Bool) : List Char → Bool
  | [] => false
  | c :: _ => p c

/-- Every `goSpace` character of the list is a plain space. -/
def spacesBlank (l : List Char) : Bool :=
  l.all (fun c => !goSpace c || c == ' ')

/-- Whitespace in the sense of the spec's claim about `reduceSpaces`: spaces,
tabs, line breaks, carriage returns, vertical tabs and form feeds. -/
def claimWhitespace (c : Char) : Bool :=
  c == ' ' || c == '\t' || c == '\n' || c == '\r' || c == vtab || c == ffeed

/-- A placeholder bounding box for concrete mark examples (the range-query
claims never inspect bounding boxes). -/
def zeroRect : PdfRectangle := ⟨0, 0, 0, 0⟩

/-- A two-byte page (`"hi"`) with a single mark, used to instantiate the
range-query rejection theorem. -/
def ptTwoBytes : PageTextM := ⟨[104, 105], [⟨0, [104], zeroRect⟩]⟩

/-- A fully marked page `"abcd"` with two two-byte marks, used to instantiate
the boundary-overlap theorems. -/
def ptOverlapW : PageTextM :=
  ⟨[97, 98, 99, 100], [⟨0, [97, 98], zeroRect⟩, ⟨2, [99, 100], zeroRect⟩]⟩

/-- The page `"a b"` whose space at offset 1 is an inserted separator backed
by no mark (spec §4.4).  The range `[1, 3)` starts on the separator. -/
def ptSepStart : PageTextM :=
  ⟨[97, 32, 98], [⟨0, [97], zeroRect⟩, ⟨2, [98], zeroRect⟩]⟩

/-- The page `"ab cd"` whose space at offset 2 is an inserted separator
backed by no mark; the width-2 window `[2, 4)` starts on the separator. -/
def ptSepWindow : PageTextM :=
  ⟨[97, 98, 32, 99, 100],
   [⟨0, [97], zeroRect⟩, ⟨1, [98], zeroRect⟩, ⟨3, [99], zeroRect⟩, ⟨4, [100], zeroRect⟩]⟩

/-- A concrete colorspace used to instantiate the color-fallback theorem:
color 0 converts to RGB, every other color fails to convert. -/
def rgbOrFail : PdfColorspaceM :=
  ⟨fun col => if col = 0 then .ok (.rgb 1 0 1) else .error "unsupported colorspace"⟩

/-- The string `"a\v\vb"`: two adjacent vertical tabs surrounded by
letters. -/
def doubleVTab : String := ⟨['a', vtab, vtab, 'b']⟩

/-! ## Theorems -/

/-- C7: bounding-box equality in the conformance comparison is coordinate-wise
with a tolerance of just over 0.5 points: two rectangles match exactly when
each of the four corresponding coordinates (llx, lly, urx, ury) differs in
absolute value by at most 0.5001. -/
theorem rectEquals_tolerance (b1 b2 : PdfRectangle) :
    rectEquals b1 b2 = true ↔
      (|b1.llx - b2.llx| ≤ 5001 / 10000 ∧ |b1.lly - b2.lly| ≤ 5001 / 10000 ∧
       |b1.urx - b2.urx| ≤ 5001 / 10000 ∧ |b1.ury - b2.ury| ≤ 5001 / 10000) := by
  simp [rectEquals, tol, and_assoc]

/-- Witness for C7: two rectangles that differ by exactly half a point in one
coordinate compare as equal. -/
theorem rectEquals_tolerance_witness :
    rectEquals ⟨0, 0, 0, 0⟩ ⟨1 / 2, 0, 0, 0⟩ = true := by
  refine (rectEquals_tolerance ⟨0, 0, 0, 0⟩ ⟨1 / 2, 0, 0, 0⟩).mpr ?_
  refine ⟨?_, by norm_num, by norm_num, by norm_num⟩
  rw [show |(0 : ℚ) - 1 / 2| = 1 / 2 by rw [abs_sub_comm, abs_of_nonneg] <;> norm_num]
  norm_num

/-- C8: for every byte string `s` and every `n`, `truncate s n` is the prefix
of `s` consisting of its first `min n (len s)` bytes (the count is in bytes,
so the result may end inside a multi-byte UTF-8 sequence). -/
theorem truncate_takes_min (s : List Nat) (n : Nat) :
    truncate s n = s.take (min n s.length) := by
  unfold truncate
  by_cases h : s.length < n
  · rw [if_pos h, Nat.min_eq_right h.le, List.take_length]
  · rw [if_neg h, Nat.min_eq_left (Nat.le_of_not_lt h)]

/-- C6: color resolution never fails extraction: `pdfColorToGoColor` is total
and returns the default color (black) in every unsupported case — nil
colorspace, nil color, failing conversion to RGB, or a converted color not
in the DeviceRGB colorspace; otherwise it returns the fully opaque NRGBA
color whose channels are the RGB components scaled by 255. -/
theorem pdfColorToGoColor_fallback :
    (∀ c, pdfColorToGoColor none c = .black) ∧
    (∀ s, pdfColorToGoColor s none = .black) ∧
    (∀ s c e, s.colorToRGB c = .error e →
      pdfColorToGoColor (some s) (some c) = .black) ∧
    (∀ s c, s.colorToRGB c = .ok .nonRGB →
      pdfColorToGoColor (some s) (some c) = .black) ∧
    (∀ s c r g b, s.colorToRGB c = .ok (.rgb r g b) →
      pdfColorToGoColor (some s) (some c) =
        .nrgba (colorChannel r) (colorChannel g) (colorChannel b) 255) := by
  refine ⟨fun c => ?_, fun s => ?_, fun s c e h => ?_, fun s c h => ?_,
    fun s c r g b h => ?_⟩
  · cases c <;> rfl
  · cases s <;> rfl
  · simp [pdfColorToGoColor, h]
  · simp [pdfColorToGoColor, h]
  · simp [pdfColorToGoColor, h]

/-- Witness for C6: with a colorspace that converts color 0 to RGB(1, 0, 1)
and fails on every other color, color 0 yields opaque magenta and color 1
falls back to black. -/
theorem pdfColorToGoColor_fallback_witness :
    pdfColorToGoColor (some rgbOrFail) (some 0) = .nrgba 255 0 255 255 ∧
    pdfColorToGoColor (some rgbOrFail) (some 1) = .black := by
  constructor
  · have h := pdfColorToGoColor_fallback.2.2.2.2 rgbOrFail 0 1 0 1 rfl
    rw [h]
    norm_num [colorChannel]
    decide
  · exact pdfColorToGoColor_fallback.2.2.1 rgbOrFail 1 "unsupported colorspace" rfl

/-- C9: `toFloatXY` errors exactly when the operand list does not have length
2 or some element cannot be converted to a float; every error path returns
`x = 0` and `y = 0`; success returns the two numeric values in their
original order. -/
theorem toFloatXY_spec (objs : List PdfObject) :
    ((toFloatXY objs).2.2 = none ↔
      objs.length = 2 ∧ ∀ o ∈ objs, isNumber o = true) ∧
    ((toFloatXY objs).2.2 ≠ none →
      (toFloatXY objs).1 = 0 ∧ (toFloatXY objs).2.1 = 0) ∧
    (∀ x y, objs = [.number x, .number y] → toFloatXY objs = (x, y, none)) := by
  refine ⟨?_, ?_, ?_⟩
  · unfold toFloatXY
    by_cases hlen : objs.length ≠ 2
    · rw [if_pos hlen]
      constructor
      · intro h; exact absurd h (Option.some_ne_none _)
      · rintro ⟨h2, -⟩; exact absurd h2 hlen
    · rw [if_neg hlen]
      push_neg at hlen
      unfold GetNumbersAsFloat
      by_cases hall : objs.all isNumber
      · rw [if_pos hall]
        rw [List.all_eq_true] at hall
        exact ⟨fun _ => ⟨hlen, hall⟩, fun _ => rfl⟩
      · rw [if_neg hall]
        rw [List.all_eq_true] at hall
        constructor
        · intro h; exact absurd h (Option.some_ne_none _)
        · rintro ⟨-, h2⟩; exact absurd h2 hall
  · intro hne
    unfold toFloatXY at hne ⊢
    by_cases hlen : objs.length ≠ 2
    · rw [if_pos hlen]; exact ⟨rfl, rfl⟩
    · rw [if_neg hlen] at hne ⊢
      unfold GetNumbersAsFloat at hne ⊢
      by_cases hall : objs.all isNumber
      · rw [if_pos hall] at hne
        exact absurd rfl hne
      · rw [if_neg hall]
        exact ⟨rfl, rfl⟩
  · rintro x y rfl
    unfold toFloatXY GetNumbersAsFloat
    simp [isNumber]

/-- Witness for C9: two numbers convert in order; a singleton list errors
with zero coordinates. -/
theorem toFloatXY_spec_witness :
    toFloatXY [.number 3, .number 4] = (3, 4, none) ∧
    (toFloatXY [.other]).1 = 0 ∧ (toFloatXY [.other]).2.1 = 0 ∧
    (toFloatXY [.other]).2.2 ≠ none := by
  have hne : (toFloatXY [PdfObject.other]).2.2 ≠ none := by
    simp [toFloatXY]
  have h := (toFloatXY_spec [PdfObject.other]).2.1 hne
  exact ⟨(toFloatXY_spec _).2.2 3 4 rfl, h.1, h.2, hne⟩

/-- C3: extracting the content stream
`BT /UniDocCourier 24 Tf (Hello World!)Tj 0 -25 Td (Doink)Tj ET` against a
page with media box (-200,-200,600,800) succeeds and, after trailing
newlines are stripped, yields exactly `"Hello World!\nDoink"` (the `Td`
displacement of -25 at font size 24 produces one line break). -/
theorem extract_fragment_portrait :
    trimRightNewlines (extractText fragmentMediaBox portraitOps) =
      "Hello World!\nDoink" := by
  decide

/-- C4: extraction is invariant under a compensating rotation of the text
matrix: the same stream prefixed with the 180-degree matrix
`-1 0 0 -1 0 0 Tm` or the 90-degree matrix `0 1 -1 0 0 0 Tm` extracts to the
identical logical text as the unrotated stream, over the same media box. -/
theorem extract_fragment_rotation_invariant :
    extractText fragmentMediaBox landscapeOps =
      extractText fragmentMediaBox portraitOps ∧
    extractText fragmentMediaBox rot180Ops =
      extractText fragmentMediaBox portraitOps ∧
    trimRightNewlines (extractText fragmentMediaBox portraitOps) =
      "Hello World!\nDoink" := by
  decide

/-- C1: the range query rejects out-of-range and inverted arguments: for any
page whose text is shorter than 1e10 bytes, `RangeOffset(-1, 0)`,
`RangeOffset(0, 1e10)` and `RangeOffset(1, 0)` all fail with the
`InvalidRange` condition. -/
theorem RangeOffset_rejects_invalid (pt : PageTextM)
    (h : (pt.text.length : Int) < 10 ^ 10) :
    RangeOffset pt (-1) 0 = .error .invalidRange ∧
    RangeOffset pt 0 (10 ^ 10) = .error .invalidRange ∧
    RangeOffset pt 1 0 = .error .invalidRange := by
  refine ⟨?_, ?_, ?_⟩ <;>
    · unfold RangeOffset
      rw [if_pos]
      simp only [Bool.or_eq_true, decide_eq_true_eq]
      omega

/-- Witness for C1: the rejection theorem instantiated on the two-byte
page. -/
theorem RangeOffset_rejects_invalid_witness :
    RangeOffset ptTwoBytes (-1) 0 = .error .invalidRange ∧
    RangeOffset ptTwoBytes 0 (10 ^ 10) = .error .invalidRange ∧
    RangeOffset ptTwoBytes 1 0 = .error .invalidRange :=
  RangeOffset_rejects_invalid ptTwoBytes (by norm_num [ptTwoBytes])

/-- Counterexample for C2 as stated: on the page `"a b"` whose space is an
inserted separator, the successful query `RangeOffset(1, 3)` returns the
single mark `"b"`, whose text is no longer than the query substring `" b"`,
yet no non-empty suffix of `"b"` is a prefix of `" b"` — the first returned
mark can start after the query start when the query start falls on a
separator. -/
theorem RangeOffset_boundary_counterexample :
    marksWellFormed ptSepStart = true ∧
    RangeOffset ptSepStart 1 3 = .ok [⟨2, [98], zeroRect⟩] ∧
    (⟨2, [98], zeroRect⟩ : TextMark).text.length ≤ (querySub ptSepStart 1 3).length ∧
    startWith (querySub ptSepStart 1 3) (⟨2, [98], zeroRect⟩ : TextMark).text = false := by
  exact ⟨by decide, rfl, by decide, by decide⟩

/-- Counterexample for C5 as stated: on the page `"ab cd"` with separator
space at offset 2, the width-2 window `[2, 4)` does not fall entirely on
separators (offset 3 is backed), the query succeeds with the single mark
`"c"`, whose text is no longer than the window, yet no non-empty suffix of
`"c"` is a prefix of the window text `" c"`. -/
theorem RangeOffset_window_counterexample :
    marksWellFormed ptSepWindow = true ∧
    marksDisjoint ptSepWindow.marks = true ∧
    1 ≤ 2 ∧ 2 ≤ ptSepWindow.text.length / 2 ∧ 2 + 2 ≤ ptSepWindow.text.length ∧
    backed ptSepWindow 3 = true ∧
    RangeOffset ptSepWindow 2 4 = .ok [⟨3, [99], zeroRect⟩] ∧
    (⟨3, [99], zeroRect⟩ : TextMark).text.length ≤ 2 ∧
    startWith (querySub ptSepWindow 2 4) (⟨3, [99], zeroRect⟩ : TextMark).text = false := by
  exact ⟨by decide, by decide, by decide, by decide, by decide, by decide, rfl,
    by decide, by decide⟩

/-- Unpacking a successful range query: the bounds were valid and the result
is the non-empty list of marks intersecting the range. -/
theorem RangeOffset_eq_ok (pt : PageTextM) (s e : Int) (ms : List TextMark)
    (h : RangeOffset pt s e = .ok ms) :
    0 ≤ s ∧ e ≤ (pt.text.length : Int) ∧ s < e ∧
    ms = pt.marks.filter (fun m => intersectsRange m s.toNat e.toNat) ∧
    ms ≠ [] := by
  unfold RangeOffset at h
  split at h
  · cases h
  · split at h
    · cases h
    · rename_i hcond hemp
      simp only [Bool.or_eq_true, decide_eq_true_eq, not_or] at hcond
      injection h with h'
      subst h'
      refine ⟨by omega, by omega, by omega, rfl, ?_⟩
      simpa [List.isEmpty_iff] using hemp

/-- Slice form of well-formedness for a single member mark. -/
theorem wf_slice (pt : PageTextM) (hwf : marksWellFormed pt = true)
    {m : TextMark} (hm : m ∈ pt.marks) :
    m.text ≠ [] ∧ m.text = (pt.text.drop m.offset).take m.text.length := by
  unfold marksWellFormed at hwf
  rw [Bool.and_eq_true, List.all_eq_true] at hwf
  have h := hwf.1 m hm
  rw [Bool.and_eq_true] at h
  refine ⟨?_, eq_of_beq h.2⟩
  simpa using h.1

/-- If a mark covers text position `s` onwards and its text is the matching
slice of the logical text, then the test's `startWith` overlap check holds
for the query substring `text[s:e]` whenever the mark's text is no longer
than the query substring. -/
theorem startWith_of_slice (text : List Nat) (s e : Nat) (m : TextMark)
    (hslice : m.text = (text.drop m.offset).take m.text.length)
    (hoff : m.offset ≤ s)
    (hcov : s < markEnd m)
    (hguard : m.text.length ≤ e - s) :
    startWith ((text.drop s).take (e - s)) m.text = true := by
  unfold markEnd at hcov
  have hn : s - m.offset < m.text.length := by omega
  have hdropeq : m.text.drop (s - m.offset) =
      (text.drop s).take (m.text.length - (s - m.offset)) := by
    conv_lhs => rw [hslice]
    rw [List.drop_take, List.drop_drop]
    congr 2
    omega
  unfold startWith
  rw [List.any_eq_true]
  refine ⟨s - m.offset, List.mem_range.mpr hn, ?_⟩
  rw [ List.isPrefixOf_iff_prefix, hdropeq]
  exact List.take_prefix_take_left _ (by omega)

/-- If a mark covers the text positions just before `e` and its text is the
matching slice of the logical text, then the test's `endsWith` overlap check
holds for the query substring `text[s:e]` whenever the mark's text is no
longer than the query substring. -/
theorem endsWith_of_slice (text : List Nat) (s e : Nat) (m : TextMark)
    (hslice : m.text = (text.drop m.offset).take m.text.length)
    (hoff : m.offset < e)
    (hend : e ≤ markEnd m)
    (hguard : m.text.length ≤ e - s)
    (hse : s < e) :
    endsWith ((text.drop s).take (e - s)) m.text = true := by
  unfold markEnd at hend
  have h1 : e - m.offset - 1 < m.text.length := by omega
  have hso : s ≤ m.offset := by omega
  have htakeeq : m.text.take (e - m.offset) =
      ((text.drop s).take (e - s)).drop (m.offset - s) := by
    conv_lhs => rw [hslice]
    rw [List.take_take, List.drop_take, List.drop_drop]
    congr 1
    · omega
    · congr 1
      omega
  unfold endsWith
  rw [List.any_eq_true]
  refine ⟨e - m.offset - 1, List.mem_range.mpr h1, ?_⟩
  rw [show e - m.offset - 1 + 1 = e - m.offset by omega]
  rw [ List.isSuffixOf_iff_suffix, htakeeq]
  exact List.drop_suffix _ _

/-- C2 (amended): for every successful `RangeOffset([start, end))` query over
well-formed page marks, whenever the first returned mark starts at or before
the query start, if its text is no longer (in bytes) than the query
substring then some non-empty suffix of its text is a prefix of the query
substring; symmetrically, whenever the last returned mark ends at or after
the query end, if its text is no longer than the query substring then some
non-empty prefix of its text is a suffix of the query substring. -/
theorem RangeOffset_boundary_overlap
    (pt : PageTextM) (s e : Int) (ms : List TextMark) (m0 mN : TextMark)
    (hwf : marksWellFormed pt = true)
    (hok : RangeOffset pt s e = .ok ms)
    (h0 : ms.head? = some m0) (hN : ms.getLast? = some mN)
    (hfirst : (m0.offset : Int) ≤ s)
    (hlast : e ≤ (markEnd mN : Int)) :
    (m0.text.length ≤ e.toNat - s.toNat →
      startWith (querySub pt s.toNat e.toNat) m0.text = true) ∧
    (mN.text.length ≤ e.toNat - s.toNat →
      endsWith (querySub pt s.toNat e.toNat) mN.text = true) := by
  obtain ⟨hs0, hel, hse, hms, -⟩ := RangeOffset_eq_ok pt s e ms hok
  have hm0 : m0 ∈ ms := List.mem_of_mem_head? (Option.mem_def.mpr h0)
  have hmN : mN ∈ ms := List.mem_of_mem_getLast? (Option.mem_def.mpr hN)
  rw [hms, List.mem_filter] at hm0 hmN
  have hint0 := hm0.2
  have hintN := hmN.2
  unfold intersectsRange at hint0 hintN
  rw [Bool.and_eq_true, decide_eq_true_eq, decide_eq_true_eq] at hint0 hintN
  obtain ⟨-, hsl0⟩ := wf_slice pt hwf hm0.1
  obtain ⟨-, hslN⟩ := wf_slice pt hwf hmN.1
  constructor
  · intro hguard
    exact startWith_of_slice pt.text s.toNat e.toNat m0 hsl0 (by omega)
      hint0.2 hguard
  · intro hguard
    exact endsWith_of_slice pt.text s.toNat e.toNat mN hslN hintN.1
      (by omega) hguard (by omega)

/-- Witness for C2: on the fully marked page `"abcd"`, the query `[1, 3)`
returns the marks `"ab"` and `"cd"`, and both boundary overlap checks
succeed for the query substring `"bc"`. -/
theorem RangeOffset_boundary_overlap_witness :
    startWith (querySub ptOverlapW 1 3) [97, 98] = true ∧
    endsWith (querySub ptOverlapW 1 3) [99, 100] = true := by
  have h := RangeOffset_boundary_overlap ptOverlapW 1 3
    [⟨0, [97, 98], zeroRect⟩, ⟨2, [99, 100], zeroRect⟩]
    ⟨0, [97, 98], zeroRect⟩ ⟨2, [99, 100], zeroRect⟩
    (by decide) rfl rfl rfl (by decide) (by decide)
  exact ⟨h.1 (by decide), h.2 (by decide)⟩

/-- The chain condition `marksDisjoint` implies pairwise disjointness. -/
theorem marksDisjoint_pairwise (l : List TextMark) (h : marksDisjoint l = true) :
    List.Pairwise (fun a b => markEnd a ≤ b.offset) l := by
  induction l with
  | nil => exact .nil
  | cons a t ih =>
    cases t with
    | nil => exact List.pairwise_singleton _ _
    | cons b t' =>
      unfold marksDisjoint at h
      rw [Bool.and_eq_true, decide_eq_true_eq] at h
      refine List.Pairwise.cons (fun x hx => ?_) (ih h.2)
      rcases List.mem_cons.mp hx with rfl | hx'
      · exact h.1
      · have hbx := List.rel_of_pairwise_cons (ih h.2) hx'
        unfold markEnd at *
        omega

/-- In a pairwise-related list, every member is the head or related to it
from the left. -/
theorem pairwise_head_rel {R : TextMark → TextMark → Prop} {l : List TextMark}
    {a m : TextMark} (hp : List.Pairwise R l) (hh : l.head? = some a)
    (hm : m ∈ l) : m = a ∨ R a m := by
  cases l with
  | nil => cases hh
  | cons x t =>
    have hx : x = a := by
      simpa using hh
    subst hx
    rcases List.mem_cons.mp hm with rfl | hm'
    · exact Or.inl rfl
    · exact Or.inr (List.rel_of_pairwise_cons hp hm')

/-- In a pairwise-related list, every member is the last element or related
to it from the right. -/
theorem pairwise_getLast_rel {R : TextMark → TextMark → Prop} {l : List TextMark}
    {a m : TextMark} (hp : List.Pairwise R l) (hh : l.getLast? = some a)
    (hm : m ∈ l) : m = a ∨ R m a := by
  have hp' : List.Pairwise (fun x y => R y x) l.reverse :=
    List.pairwise_reverse.mpr hp
  have hh' : l.reverse.head? = some a := by rw [List.head?_reverse]; exact hh
  have hm' : m ∈ l.reverse := List.mem_reverse.mpr hm
  exact pairwise_head_rel hp' hh' hm'

/-- Evaluation of the range query on in-range natural bounds: the validity
guard passes and the result depends only on the intersecting marks. -/
theorem RangeOffset_nat_eval (pt : PageTextM) (s e : Nat)
    (hse : s < e) (hel : e ≤ pt.text.length) :
    RangeOffset pt (s : Int) (e : Int) =
      (if (pt.marks.filter (fun m => intersectsRange m s e)).isEmpty then
        .error .noMatch
       else .ok (pt.marks.filter (fun m => intersectsRange m s e))) := by
  unfold RangeOffset
  rw [if_neg (by simp only [Bool.or_eq_true, decide_eq_true_eq]; omega)]
  rw [Int.toNat_natCast, Int.toNat_natCast]

/-- C5 (amended): over well-formed, non-overlapping page marks, for every
window width `n` from 1 up to half the text length and every in-range window
of width `n`: the query returns `NoMatch` exactly when the window falls
entirely on inserted separators (no backed position); and whenever the
window's first and last positions are backed by marks, the query returns a
non-empty view whose first and last marks satisfy the prefix/suffix overlap
rule (under the rule's own length guard). -/
theorem RangeOffset_window_containment
    (pt : PageTextM) (n ofs : Nat)
    (hwf : marksWellFormed pt = true)
    (hdis : marksDisjoint pt.marks = true)
    (hn : 1 ≤ n) (_hhalf : n ≤ pt.text.length / 2)
    (hwin : ofs + n ≤ pt.text.length) :
    (RangeOffset pt (ofs : Int) ((ofs + n : Nat) : Int) = .error .noMatch ↔
      ∀ p, ofs ≤ p → p < ofs + n → backed pt p = false) ∧
    (backed pt ofs = true → backed pt (ofs + n - 1) = true →
      ∃ ms, RangeOffset pt (ofs : Int) ((ofs + n : Nat) : Int) = .ok ms ∧
        ms ≠ [] ∧
        (∀ m0, ms.head? = some m0 → m0.text.length ≤ n →
          startWith (querySub pt ofs (ofs + n)) m0.text = true) ∧
        (∀ mN, ms.getLast? = some mN → mN.text.length ≤ n →
          endsWith (querySub pt ofs (ofs + n)) mN.text = true)) := by
  have heval := RangeOffset_nat_eval pt ofs (ofs + n) (by omega) hwin
  constructor
  · constructor
    · intro hnm p hp1 hp2
      rw [heval] at hnm
      split at hnm
      · rename_i hemp
        rw [List.isEmpty_iff] at hemp
        by_contra hb
        rw [Bool.not_eq_false] at hb
        unfold backed at hb
        rw [List.any_eq_true] at hb
        obtain ⟨m, hm_mem, hmp⟩ := hb
        rw [Bool.and_eq_true, decide_eq_true_eq, decide_eq_true_eq] at hmp
        have hmem : m ∈ pt.marks.filter (fun m => intersectsRange m ofs (ofs + n)) := by
          rw [List.mem_filter]
          refine ⟨hm_mem, ?_⟩
          unfold intersectsRange
          rw [Bool.and_eq_true, decide_eq_true_eq, decide_eq_true_eq]
          unfold markEnd at hmp ⊢
          omega
        rw [hemp] at hmem
        cases hmem
      · cases hnm
    · intro hall
      have hemp : (pt.marks.filter (fun m => intersectsRange m ofs (ofs + n))).isEmpty = true := by
        rw [List.isEmpty_iff, List.filter_eq_nil_iff]
        intro m hm hint
        unfold intersectsRange at hint
        rw [Bool.and_eq_true, decide_eq_true_eq, decide_eq_true_eq] at hint
        obtain ⟨hne, -⟩ := wf_slice pt hwf hm
        have hlen1 : 1 ≤ m.text.length := List.length_pos.mpr hne
        have hcov : backed pt (max m.offset ofs) = true := by
          unfold backed
          rw [List.any_eq_true]
          refine ⟨m, hm, ?_⟩
          rw [Bool.and_eq_true, decide_eq_true_eq, decide_eq_true_eq]
          refine ⟨le_max_left _ _, ?_⟩
          unfold markEnd at hint ⊢
          omega
        have hfalse := hall (max m.offset ofs) (le_max_right _ _) ?_
        · rw [hcov] at hfalse
          cases hfalse
        · unfold markEnd at hint
          omega
      rw [heval, if_pos hemp]
  · intro hb0 hb1
    unfold backed at hb0 hb1
    rw [List.any_eq_true] at hb0 hb1
    obtain ⟨mA, hmA, hA⟩ := hb0
    obtain ⟨mB, hmB, hB⟩ := hb1
    rw [Bool.and_eq_true, decide_eq_true_eq, decide_eq_true_eq] at hA hB
    have hAint : intersectsRange mA ofs (ofs + n) = true := by
      unfold intersectsRange
      rw [Bool.and_eq_true, decide_eq_true_eq, decide_eq_true_eq]
      unfold markEnd at hA ⊢
      omega
    have hBint : intersectsRange mB ofs (ofs + n) = true := by
      unfold intersectsRange
      rw [Bool.and_eq_true, decide_eq_true_eq, decide_eq_true_eq]
      unfold markEnd at hB ⊢
      omega
    have hmAF : mA ∈ pt.marks.filter (fun m => intersectsRange m ofs (ofs + n)) :=
      List.mem_filter.mpr ⟨hmA, hAint⟩
    have hmBF : mB ∈ pt.marks.filter (fun m => intersectsRange m ofs (ofs + n)) :=
      List.mem_filter.mpr ⟨hmB, hBint⟩
    have hFne : pt.marks.filter (fun m => intersectsRange m ofs (ofs + n)) ≠ [] :=
      List.ne_nil_of_mem hmAF
    have hpw : List.Pairwise (fun a b => markEnd a ≤ b.offset)
        (pt.marks.filter (fun m => intersectsRange m ofs (ofs + n))) :=
      (marksDisjoint_pairwise pt.marks hdis).filter _
    refine ⟨pt.marks.filter (fun m => intersectsRange m ofs (ofs + n)), ?_, hFne, ?_, ?_⟩
    · rw [heval, if_neg (by simp [List.isEmpty_iff, hFne])]
    · intro m0 h0 hguard
      have hm0F := List.mem_of_mem_head? (Option.mem_def.mpr h0)
      have hm0int := (List.mem_filter.mp hm0F).2
      unfold intersectsRange at hm0int
      rw [Bool.and_eq_true, decide_eq_true_eq, decide_eq_true_eq] at hm0int
      have hoff0 : m0.offset ≤ ofs := by
        rcases pairwise_head_rel hpw h0 hmAF with heq | hrel
        · subst heq
          unfold markEnd at hA
          omega
        · unfold markEnd at hrel hm0int hA
          omega
      obtain ⟨-, hsl0⟩ := wf_slice pt hwf (List.mem_filter.mp hm0F).1
      exact startWith_of_slice pt.text ofs (ofs + n) m0 hsl0 hoff0 hm0int.2
        (by omega)
    · intro mN hNl hguard
      have hmNF := List.mem_of_mem_getLast? (Option.mem_def.mpr hNl)
      have hmNint := (List.mem_filter.mp hmNF).2
      unfold intersectsRange at hmNint
      rw [Bool.and_eq_true, decide_eq_true_eq, decide_eq_true_eq] at hmNint
      have hendN : ofs + n ≤ markEnd mN := by
        rcases pairwise_getLast_rel hpw hNl hmBF with heq | hrel
        · subst heq
          unfold markEnd at hB ⊢
          omega
        · unfold markEnd at hrel hmNint hB ⊢
          omega
      obtain ⟨-, hslN⟩ := wf_slice pt hwf (List.mem_filter.mp hmNF).1
      exact endsWith_of_slice pt.text ofs (ofs + n) mN hslN hmNint.1 hendN
        (by omega) (by omega)

/-- Witness for C5: on the fully marked page `"abcd"`, the width-2 window
`[0, 2)` succeeds with the single mark `"ab"`, which satisfies both overlap
checks against the window text `"ab"`. -/
theorem RangeOffset_window_containment_witness :
    RangeOffset ptOverlapW 0 2 = .ok [⟨0, [97, 98], zeroRect⟩] ∧
    startWith (querySub ptOverlapW 0 2) [97, 98] = true ∧
    endsWith (querySub ptOverlapW 0 2) [97, 98] = true := by
  have h := RangeOffset_window_containment ptOverlapW 2 0
    (by decide) (by decide) (by decide) (by decide) (by decide)
  obtain ⟨ms, hok, -, hsw, hew⟩ := h.2 (by decide) (by decide)
  have hval : RangeOffset ptOverlapW ((0 : Nat) : Int) (((0 + 2 : Nat)) : Int) =
      .ok [⟨0, [97, 98], zeroRect⟩] := rfl
  rw [hval] at hok
  injection hok with hok'
  subst hok'
  refine ⟨hval, hsw ⟨0, [97, 98], zeroRect⟩ rfl (by decide),
    hew ⟨0, [97, 98], zeroRect⟩ rfl (by decide)⟩

/-- Unfolding `noDoubleBy` one step via the head predicate. -/
theorem noDoubleBy_cons (p : Char → Bool) (a : Char) (l : List Char) :
    noDoubleBy p (a :: l) = ((!(p a && headP p l)) && noDoubleBy p l) := by
  cases l <;> simp [noDoubleBy, headP]

/-- `noDoubleBy` holds of the tail. -/
theorem noDoubleBy_tail {p : Char → Bool} {a : Char} {l : List Char}
    (h : noDoubleBy p (a :: l) = true) : noDoubleBy p l = true := by
  rw [noDoubleBy_cons, Bool.and_eq_true] at h
  exact h.2

/-- Every `goSpace` character emitted by `collapseAux` is a plain space. -/
theorem collapseAux_blank (l : List Char) :
    ∀ b, spacesBlank (collapseAux b l) = true := by
  induction l with
  | nil => intro b; rfl
  | cons c cs ih =>
    intro b
    by_cases hc : goSpace c
    · cases b
      · simp only [collapseAux, hc, if_true, if_false, Bool.false_eq_true]
        simp only [spacesBlank, List.all_cons]
        rw [Bool.and_eq_true]
        exact ⟨by rfl, ih true⟩
      · simp only [collapseAux, hc, if_true]
        exact ih true
    · simp only [collapseAux, hc, if_false, Bool.false_eq_true]
      simp only [spacesBlank, List.all_cons]
      rw [Bool.and_eq_true]
      refine ⟨?_, ih false⟩
      simp [hc]

/-- Reduction of `collapseAux` on a space character outside a run. -/
theorem collapseAux_cons_space_false {c : Char} (cs : List Char)
    (hc : goSpace c = true) :
    collapseAux false (c :: cs) = ' ' :: collapseAux true cs := by
  simp [collapseAux, hc]

/-- Reduction of `collapseAux` on a space character inside a run. -/
theorem collapseAux_cons_space_true {c : Char} (cs : List Char)
    (hc : goSpace c = true) :
    collapseAux true (c :: cs) = collapseAux true cs := by
  simp [collapseAux, hc]

/-- Reduction of `collapseAux` on a non-space character. -/
theorem collapseAux_cons_nonspace (b : Bool) {c : Char} (cs : List Char)
    (hc : goSpace c = false) :
    collapseAux b (c :: cs) = c :: collapseAux false cs := by
  simp [collapseAux, hc]

/-- The output of `collapseAux` never has two consecutive `goSpace`
characters, and in mid-run state it never starts with one. -/
theorem collapseAux_noDouble (l : List Char) :
    ∀ b, noDoubleBy goSpace (collapseAux b l) = true ∧
      (b = true → headP goSpace (collapseAux b l) = false) := by
  induction l with
  | nil => intro b; exact ⟨rfl, fun _ => rfl⟩
  | cons c cs ih =>
    intro b
    by_cases hc : goSpace c
    · cases b
      · rw [collapseAux_cons_space_false cs hc]
        constructor
        · rw [noDoubleBy_cons, Bool.and_eq_true]
          refine ⟨?_, (ih true).1⟩
          rw [(ih true).2 rfl]
          rfl
        · intro h
          cases h
      · rw [collapseAux_cons_space_true cs hc]
        exact ih true
    · rw [Bool.not_eq_true] at hc
      rw [collapseAux_cons_nonspace b cs hc]
      constructor
      · rw [noDoubleBy_cons, Bool.and_eq_true]
        refine ⟨?_, (ih false).1⟩
        simp [hc]
      · intro _
        simp [headP, hc]

/-- A list with no double spaces whose spaces are all plain is a fixpoint of
`collapseAux`. -/
theorem collapseAux_fix (l : List Char) :
    (noDoubleBy goSpace l = true → spacesBlank l = true →
      collapseAux false l = l) ∧
    (noDoubleBy goSpace l = true → spacesBlank l = true →
      headP goSpace l = false → collapseAux true l = l) := by
  induction l with
  | nil => exact ⟨fun _ _ => rfl, fun _ _ _ => rfl⟩
  | cons c cs ih =>
    constructor
    · intro hnd hbl
      by_cases hc : goSpace c
      · have hc' : c = ' ' := by
          simp only [spacesBlank, List.all_cons, Bool.and_eq_true] at hbl
          have h1 := hbl.1
          rw [hc] at h1
          simpa using h1
        have hhead : headP goSpace cs = false := by
          rw [noDoubleBy_cons, Bool.and_eq_true] at hnd
          have h1 := hnd.1
          rw [hc] at h1
          simpa using h1
        have hbl' : spacesBlank cs = true := by
          simp only [spacesBlank, List.all_cons, Bool.and_eq_true] at hbl
          exact hbl.2
        rw [collapseAux_cons_space_false cs hc]
        rw [ih.2 (noDoubleBy_tail hnd) hbl' hhead, hc']
      · rw [Bool.not_eq_true] at hc
        have hbl' : spacesBlank cs = true := by
          simp only [spacesBlank, List.all_cons, Bool.and_eq_true] at hbl
          exact hbl.2
        rw [collapseAux_cons_nonspace false cs hc]
        rw [ih.1 (noDoubleBy_tail hnd) hbl']
    · intro hnd hbl hh
      have hc : goSpace c = false := hh
      have hbl' : spacesBlank cs = true := by
        simp only [spacesBlank, List.all_cons, Bool.and_eq_true] at hbl
        exact hbl.2
      rw [collapseAux_cons_nonspace true cs hc]
      rw [ih.1 (noDoubleBy_tail hnd) hbl']

/-- `noDoubleBy` passes to the right part of an append. -/
theorem noDoubleBy_append_right {p : Char → Bool} (l₁ : List Char)
    {l₂ : List Char} (h : noDoubleBy p (l₁ ++ l₂) = true) :
    noDoubleBy p l₂ = true := by
  induction l₁ with
  | nil => exact h
  | cons a t ih => exact ih (noDoubleBy_tail h)

/-- `noDoubleBy` passes to suffixes. -/
theorem noDoubleBy_suffix {p : Char → Bool} {l₁ l₂ : List Char}
    (hs : l₁ <:+ l₂) (h : noDoubleBy p l₂ = true) : noDoubleBy p l₁ = true := by
  obtain ⟨t, rfl⟩ := hs
  exact noDoubleBy_append_right t h

/-- `noDoubleBy` as a chain condition on adjacent elements. -/
theorem noDoubleBy_iff_chain (p : Char → Bool) (l : List Char) :
    noDoubleBy p l = true ↔ l.Chain' (fun a b => (!(p a && p b)) = true) := by
  induction l with
  | nil => simp [noDoubleBy]
  | cons c cs ih =>
    cases cs with
    | nil => simp [noDoubleBy]
    | cons d t =>
      rw [show noDoubleBy p (c :: d :: t) =
        ((!(p c && p d)) && noDoubleBy p (d :: t)) from rfl]
      rw [Bool.and_eq_true, List.chain'_cons]
      exact and_congr Iff.rfl ih

/-- `noDoubleBy` is preserved by list reversal. -/
theorem noDoubleBy_reverse_of {p : Char → Bool} {l : List Char}
    (h : noDoubleBy p l = true) : noDoubleBy p l.reverse = true := by
  rw [noDoubleBy_iff_chain] at h ⊢
  rw [List.chain'_reverse]
  refine List.Chain'.imp (fun a b hab => ?_) h
  rw [Bool.and_comm] at hab
  exact hab

/-- The head predicate through `head?`. -/
theorem headP_eq_head? (p : Char → Bool) (l : List Char) :
    headP p l = (l.head?.map p).getD false := by
  cases l <;> rfl

/-- After `dropWhile q`, the head no longer satisfies `q`. -/
theorem headP_dropWhile (q : Char → Bool) (l : List Char) :
    headP q (l.dropWhile q) = false := by
  induction l with
  | nil => rfl
  | cons c cs ih =>
    rw [List.dropWhile_cons]
    by_cases hq : q c
    · rw [if_pos hq]
      exact ih
    · rw [Bool.not_eq_true] at hq
      rw [if_neg (by simp [hq])]
      exact hq

/-- `dropWhile` is the identity when the head does not satisfy `q`. -/
theorem dropWhile_of_headP_false {q : Char → Bool} {l : List Char}
    (h : headP q l = false) : l.dropWhile q = l := by
  cases l with
  | nil => rfl
  | cons c cs =>
    rw [List.dropWhile_cons, if_neg]
    simp only [headP] at h
    simp [h]

/-- `dropWhile` preserves the last element when the result is non-empty. -/
theorem getLast?_dropWhile (q : Char → Bool) (l : List Char)
    (h : l.dropWhile q ≠ []) : (l.dropWhile q).getLast? = l.getLast? := by
  induction l with
  | nil => exact absurd rfl h
  | cons c cs ih =>
    rw [List.dropWhile_cons] at h ⊢
    by_cases hq : q c
    · rw [if_pos hq] at h ⊢
      have hcs : cs ≠ [] := by
        intro hnil
        rw [hnil] at h
        exact h rfl
      rw [ih h]
      cases cs with
      | nil => exact absurd rfl hcs
      | cons d t => rw [List.getLast?_cons_cons]
    · rw [if_neg hq]

/-- The trimmed list has no leading cutset character. -/
theorem headP_trimList (l : List Char) :
    headP cutset (trimList l) = false := by
  unfold trimList
  by_cases hv : (l.dropWhile cutset).reverse.dropWhile cutset = []
  · rw [hv]
    rfl
  · rw [headP_eq_head?, List.head?_reverse]
    rw [getLast?_dropWhile cutset (l.dropWhile cutset).reverse hv]
    rw [List.getLast?_reverse]
    rw [← headP_eq_head?]
    exact headP_dropWhile cutset l

/-- The trimmed list has no trailing cutset character. -/
theorem lastP_trimList (l : List Char) :
    headP cutset (trimList l).reverse = false := by
  unfold trimList
  rw [List.reverse_reverse]
  exact headP_dropWhile cutset _

/-- Trimming is idempotent. -/
theorem trimList_idem (l : List Char) : trimList (trimList l) = trimList l := by
  have h1 : (trimList l).dropWhile cutset = trimList l :=
    dropWhile_of_headP_false (headP_trimList l)
  show (((trimList l).dropWhile cutset).reverse.dropWhile cutset).reverse = trimList l
  rw [h1]
  rw [dropWhile_of_headP_false (lastP_trimList l)]
  rw [List.reverse_reverse]

/-- Trimming preserves the no-double-space property. -/
theorem noDoubleBy_trimList (p : Char → Bool) (l : List Char)
    (h : noDoubleBy p l = true) : noDoubleBy p (trimList l) = true := by
  unfold trimList
  apply noDoubleBy_reverse_of
  refine noDoubleBy_suffix (List.dropWhile_suffix _) ?_
  apply noDoubleBy_reverse_of
  exact noDoubleBy_suffix (List.dropWhile_suffix _) h

/-- Trimming preserves blankness of spaces. -/
theorem spacesBlank_trimList (l : List Char)
    (h : spacesBlank l = true) : spacesBlank (trimList l) = true := by
  unfold spacesBlank at h ⊢
  unfold trimList
  rw [List.all_eq_true] at h ⊢
  intro x hx
  refine h x ?_
  have h1 := List.mem_reverse.mp hx
  have h2 := (List.dropWhile_sublist _).subset h1
  have h3 := List.mem_reverse.mp h2
  exact (List.dropWhile_sublist _).subset h3

/-- Counterexample for C10 as stated: `reduceSpaces "a\v\vb"` leaves the two
adjacent vertical tabs untouched (Go's `\s` class does not match `\v`), so
the output contains two consecutive whitespace characters. -/
theorem reduceSpaces_counterexample :
    reduceSpaces doubleVTab = doubleVTab ∧
    claimWhitespace vtab = true ∧
    noDoubleBy claimWhitespace (reduceSpaces doubleVTab).data = false := by
  exact ⟨by decide, by decide, by decide⟩

/-- C10 (amended): `reduceSpaces` is idempotent; its output never contains
two consecutive characters of the collapsed class (space, tab, LF, FF, CR —
vertical tabs are not collapsed and may remain adjacent); and it has no
leading or trailing spaces, tabs, line breaks, carriage returns, or vertical
tabs. -/
theorem reduceSpaces_normalized (s : String) :
    reduceSpaces (reduceSpaces s) = reduceSpaces s ∧
    noDoubleBy goSpace (reduceSpaces s).data = true ∧
    headP cutset (reduceSpaces s).data = false ∧
    headP cutset (reduceSpaces s).data.reverse = false := by
  have hnd : noDoubleBy goSpace (collapseAux false s.data) = true :=
    (collapseAux_noDouble s.data false).1
  have hbl : spacesBlank (collapseAux false s.data) = true :=
    collapseAux_blank s.data false
  have hndt : noDoubleBy goSpace (trimList (collapseAux false s.data)) = true :=
    noDoubleBy_trimList goSpace _ hnd
  have hblt : spacesBlank (trimList (collapseAux false s.data)) = true :=
    spacesBlank_trimList _ hbl
  have hfix : collapseAux false (trimList (collapseAux false s.data)) =
      trimList (collapseAux false s.data) :=
    (collapseAux_fix _).1 hndt hblt
  refine ⟨?_, hndt, headP_trimList _, lastP_trimList _⟩
  show (⟨trimList (collapseAux false (trimList (collapseAux false s.data)))⟩ : String) =
    ⟨trimList (collapseAux false s.data)⟩
  rw [hfix, trimList_idem]
